import Mathlib

/-!
# Statping `core/services.go`: statistics and registry lifecycle

A shallow embedding of `src/core/services.go`.

* Go `float64` / `float32` values are modelled by `FP`: a finite value is the exact
  rational it denotes, and every arithmetic operation rounds its exact result to the
  nearest representable value (ties to even, subnormals included), overflowing to an
  infinity, as IEEE 754 binary64 / binary32 do.  Each operation is rounded on its own
  (no fused multiply-add), and the sign of a zero is not tracked (every zero is `+0`).
* `fmt.Sprintf("%0.2f", x)` and `strconv.ParseFloat` are modelled on character lists.
* `CoreApp.Services` is a list of `Service` values; the service passed to a lifecycle
  operation is a value of its own, as when a handler builds it from a request.  A Go
  runtime panic (index or slice bounds out of range) is the result `none`.
* Database calls are inputs: the counts, sums and record lists they return, and whether
  the persistence step failed.  The scheduler calls (`Start`, `Close`, `CheckQueue`) and
  the notifier calls do not touch `CoreApp.Services` and are left out.
-/

namespace Statping

/-! ## Floating point -/

/-- Nearest integer to a rational, a tie going to the even neighbour. -/
def roundHalfEven (q : ℚ) : ℤ :=
  let f := Int.floor q
  if q - f < 1 / 2 then f
  else if 1 / 2 < q - f then f + 1
  else if f % 2 = 0 then f else f + 1

/-- The exponent `k` with `2 ^ k ≤ n < 2 ^ (k + 1)` for positive `n`
(`fuel` bounds the number of halvings). -/
def log2Fuel : ℕ → ℕ → ℕ
  | 0, _ => 0
  | fuel + 1, n => if n < 2 then 0 else log2Fuel fuel (n / 2) + 1

/-- Floor of the binary logarithm of a positive natural number. -/
def log2Nat (n : ℕ) : ℕ := log2Fuel n n

/-- The integer `k` with `2 ^ k ≤ q < 2 ^ (k + 1)` for positive `q` (and 0 otherwise),
computed from the bit lengths of numerator and denominator. -/
def ilog2 (q : ℚ) : ℤ :=
  if q ≤ 0 then 0
  else if q.den * 2 ^ log2Nat q.num.natAbs ≤ q.num.natAbs * 2 ^ log2Nat q.den then
    (log2Nat q.num.natAbs : ℤ) - (log2Nat q.den : ℤ)
  else (log2Nat q.num.natAbs : ℤ) - (log2Nat q.den : ℤ) - 1

/-- Exponent `e` of the unit in the last place around `q` for a binary format with
`prec` significand bits whose smallest subnormal is `2 ^ emin`:
representable values near `q` are the integer multiples of `2 ^ e`. -/
def ulpExp (prec : ℕ) (emin : ℤ) (q : ℚ) : ℤ :=
  max (ilog2 |q| - ((prec : ℤ) - 1)) emin

/-- Round to nearest (ties to even) with `prec` significand bits, exponent unbounded above. -/
def roundQ (prec : ℕ) (emin : ℤ) (q : ℚ) : ℚ :=
  (roundHalfEven (q / 2 ^ ulpExp prec emin q) : ℚ) * 2 ^ ulpExp prec emin q

/-- A floating point datum: a finite value (as the rational it denotes), an infinity
with its sign, or not-a-number. -/
inductive FP where
  | fin (q : ℚ)
  | inf (neg : Bool)
  | nan
  deriving DecidableEq

/-- Rounding of an exact result into a binary format: overflow gives an infinity. -/
def toFP (prec : ℕ) (emin : ℤ) (emax : ℕ) (q : ℚ) : FP :=
  if (2 : ℚ) ^ emax ≤ |roundQ prec emin q| then FP.inf (decide (roundQ prec emin q < 0))
  else FP.fin (roundQ prec emin q)

/-- Rounding into binary64 (Go `float64`). -/
def toF64 (q : ℚ) : FP := toFP 53 (-1074) 1024 q

/-- Rounding into binary32 (Go `float32`). -/
def toF32 (q : ℚ) : FP := toFP 24 (-149) 128 q

/-- Go conversion `float64(n)` of an unsigned count. -/
def float64OfCount (n : ℕ) : FP := toF64 (n : ℚ)

/-- Go conversion `float32(x)` of a `float64`. -/
def float32 : FP → FP
  | FP.fin q => toF32 q
  | x => x

/-- The `float64` quotient `x / y`. -/
def fdiv : FP → FP → FP
  | FP.nan, _ => FP.nan
  | _, FP.nan => FP.nan
  | FP.inf _, FP.inf _ => FP.nan
  | FP.inf s, FP.fin b => FP.inf (s != decide (b < 0))
  | FP.fin _, FP.inf _ => FP.fin 0
  | FP.fin a, FP.fin b =>
    if b = 0 then (if a = 0 then FP.nan else FP.inf (decide (a < 0))) else toF64 (a / b)

/-- The `float64` product `x * y`. -/
def fmul : FP → FP → FP
  | FP.nan, _ => FP.nan
  | _, FP.nan => FP.nan
  | FP.inf s, FP.inf t => FP.inf (s != t)
  | FP.inf s, FP.fin b => if b = 0 then FP.nan else FP.inf (s != decide (b < 0))
  | FP.fin a, FP.inf t => if a = 0 then FP.nan else FP.inf (decide (a < 0) != t)
  | FP.fin a, FP.fin b => toF64 (a * b)

/-- The `float64` difference `x - y`. -/
def fsub : FP → FP → FP
  | FP.nan, _ => FP.nan
  | _, FP.nan => FP.nan
  | FP.inf s, FP.inf t => if s = t then FP.nan else FP.inf s
  | FP.inf s, FP.fin _ => FP.inf s
  | FP.fin _, FP.inf t => FP.inf (!t)
  | FP.fin a, FP.fin b => toF64 (a - b)

/-- The comparison `x < y`; false whenever an operand is NaN. -/
def flt : FP → FP → Bool
  | FP.fin a, FP.fin b => decide (a < b)
  | FP.fin _, FP.inf t => !t
  | FP.inf s, FP.fin _ => s
  | FP.inf s, FP.inf t => s && !t
  | _, _ => false

/-! ## Decimal text: `fmt.Sprintf("%0.Nf", x)` and `strconv.ParseFloat` -/

/-- Decimal digits of `n`, most significant first (`fuel` bounds the digit count). -/
def natCharsFuel : ℕ → ℕ → List Char
  | 0, _ => []
  | fuel + 1, n =>
    if n < 10 then [Nat.digitChar n]
    else natCharsFuel fuel (n / 10) ++ [Nat.digitChar (n % 10)]

/-- Decimal digits of `n`. -/
def natChars (n : ℕ) : List Char := natCharsFuel (n + 1) n

/-- The last `p` decimal digits of `n`, zero padded. -/
def fracChars : ℕ → ℕ → List Char
  | 0, _ => []
  | p + 1, n => fracChars p (n / 10) ++ [Nat.digitChar (n % 10)]

/-- Text of the number `n / 10 ^ p` with exactly `p` digits after the point. -/
def fixedChars (p n : ℕ) : List Char :=
  natChars (n / 10 ^ p) ++ (if p = 0 then [] else '.' :: fracChars p n)

/-- Go `fmt.Sprintf("%0.<p>f", x)`: the value rounded (ties to even) to `p` decimals. -/
def Sprintf_f (p : ℕ) : FP → String
  | FP.nan => "NaN"
  | FP.inf false => "+Inf"
  | FP.inf true => "-Inf"
  | FP.fin q =>
    String.mk ((if q < 0 then ['-'] else []) ++
      fixedChars p (roundHalfEven (|q| * 10 ^ p)).toNat)

/-- Value of a non-empty run of decimal digits. -/
def digitsVal (cs : List Char) : Option ℕ :=
  if cs = [] then none
  else cs.foldl
    (fun acc c => acc.bind fun a => if c.isDigit then some (a * 10 + (c.toNat - 48)) else none)
    (some 0)

/-- The rational denoted by a decimal numeral `[+-]digits[.digits]`. -/
def parseDecimal (cs : List Char) : Option ℚ :=
  let neg : Bool := decide (cs.head? = some '-')
  let body := if cs.head? = some '-' ∨ cs.head? = some '+' then cs.tail else cs
  let ip := body.takeWhile (fun c => c != '.')
  match body.dropWhile (fun c => c != '.') with
  | [] => (digitsVal ip).map fun (a : ℕ) => if neg then -(a : ℚ) else (a : ℚ)
  | _ :: fp =>
    (digitsVal ip).bind fun (a : ℕ) => (digitsVal fp).map fun (b : ℕ) =>
      if neg then -((a : ℚ) + (b : ℚ) / 10 ^ fp.length) else (a : ℚ) + (b : ℚ) / 10 ^ fp.length

/-- Go `strconv.ParseFloat(s, 10)` with the error discarded, on the texts `%f` produces
(a bit size other than 32 means binary64; a syntax error yields 0). -/
def ParseFloat (s : String) : FP :=
  if s = "NaN" then FP.nan
  else if s = "+Inf" then FP.inf false
  else if s = "-Inf" then FP.inf true
  else match parseDecimal s.data with
    | some v => toF64 v
    | none => FP.fin 0

/-! ## Data model -/

/-- The fields of `types.Service` that `services.go` reads or writes.  Times are
nanoseconds since the epoch, durations are nanoseconds. -/
structure Service where
  Id : Int
  Name : String
  Interval : Int
  Order : Int
  Online : Bool
  Online24Hours : FP
  SleepDuration : Int
  CreatedAt : Int
  deriving DecidableEq

/-- A successful check record. -/
structure Hit where
  CreatedAt : Int
  deriving DecidableEq

/-- A failed check record. -/
structure Failure where
  CreatedAt : Int
  Issue : String
  deriving DecidableEq

/-- Two's complement wrap of an integer into the `int64` range. -/
def wrapInt64 (x : Int) : Int := (x + 2 ^ 63) % 2 ^ 64 - 2 ^ 63

/-- Go `t.Sub(u)`: the difference of two instants, saturated to the `time.Duration` range. -/
def timeSub (t u : Int) : Int := max (-(2 ^ 63)) (min (2 ^ 63 - 1) (t - u))

/-! ## Statistics -/

/-- Method `Service.AvgTime`: `total` is the result of `TotalHits`, `sum` the result of `Sum`. -/
def AvgTime (total : ℕ) (sum : FP) : FP :=
  if total = 0 then FP.fin 0
  else
    let avg := fmul (fdiv sum (float64OfCount total)) (FP.fin 100)
    let amount := Sprintf_f 0 (fmul avg (FP.fin 10))
    ParseFloat amount

/-- Method `Service.OnlineSince`: `failed` is the result of `TotalFailuresSince(ago)`, `total`
the result of `TotalHitsSince(ago)`.  Returns the service with `Online24Hours` assigned
and the returned `float32`. -/
def OnlineSince (s : Service) (failed total : ℕ) : Service × FP :=
  if failed = 0 then ({ s with Online24Hours := FP.fin 100 }, FP.fin 100)
  else if total = 0 then ({ s with Online24Hours := FP.fin 0 }, FP.fin 0)
  else
    let avg := fmul (fdiv (float64OfCount failed) (float64OfCount total)) (FP.fin 100)
    let avg := fsub (FP.fin 100) avg
    let avg := if flt avg (FP.fin 0) then FP.fin 0 else avg
    let amount := ParseFloat (Sprintf_f 2 avg)
    ({ s with Online24Hours := float32 amount }, float32 amount)

/-- Method `Service.AvgUptime`, with the same two counts. -/
def AvgUptime (failed total : ℕ) : String :=
  if failed = 0 then "100"
  else if total = 0 then "0.00"
  else
    let percent := fmul (fdiv (float64OfCount failed) (float64OfCount total)) (FP.fin 100)
    let percent := fsub (FP.fin 100) percent
    let percent := if flt percent (FP.fin 0) then FP.fin 0 else percent
    let amount := Sprintf_f 2 percent
    if amount = "100.00" then "100" else amount

/-- Method `Service.TotalUptime`: `hits` is the result of `TotalHits`, `failures` of `TotalFailures`. -/
def TotalUptime (hits failures : ℕ) : String :=
  let percent := fmul (fdiv (float64OfCount failures) (float64OfCount hits)) (FP.fin 100)
  let percent := fsub (FP.fin 100) percent
  let percent := if flt percent (FP.fin 0) then FP.fin 0 else percent
  let amount := Sprintf_f 2 percent
  if amount = "100.00" then "100" else amount

/-- Method `Service.lastFailure`: `limited` is the result of `LimitedFailures`. -/
def lastFailure (limited : List Failure) : Option Failure :=
  if limited.length = 0 then none else limited.getLast?

/-- Method `Service.Downtime` at the instant `now`: `hits` is the result of `Hits`, `fails` the
result of `LimitedFailures`, both in the order those calls return them. -/
def Downtime (now : Int) (hits : List Hit) (fails : List Failure) : Int :=
  if fails.length = 0 then 0
  else if hits.length = 0 then
    match fails.getLast? with
    | some f => timeSub now f.CreatedAt
    | none => 0
  else
    match fails.head?, hits.head? with
    | some f, some h => timeSub f.CreatedAt h.CreatedAt
    | _, _ => 0

/-! ## Registry and lifecycle -/

/-- Modelled from the spec: `ServiceOrder.Less`, the comparison of the `sort.Interface`
wrapper around the registry, declared outside `services.go`.  The spec orders the
registry by `orderPosition` descending, so an entry comes first when its `Order` is larger. -/
def ServiceOrder.Less (a b : Service) : Bool := decide (b.Order < a.Order)

/-- Function `reorderServices`: `sort.Sort(ServiceOrder(CoreApp.Services))`.  Go's `sort.Sort`
returns a permutation in which no element is `Less` than an earlier one, the order of
equal elements being unspecified; it is modelled by insertion sort.  The general
theorems use only that the result is an ordered permutation, and the evaluations use
distinct order positions. -/
def reorderServices (services : List Service) : List Service :=
  services.insertionSort (fun a b => ServiceOrder.Less b a = false)

/-- Function `SelectService`: the first registered service with the given id, if any. -/
def SelectService (services : List Service) (id : Int) : Option Service :=
  services.find? (fun s => s.Id == id)

/-- The loop of `Service.index`: position of the first entry with the id, counted from `k`. -/
def indexLoop (id : Int) : List Service → ℕ → Option ℕ
  | [], _ => none
  | x :: xs, k => if id = x.Id then some k else indexLoop id xs (k + 1)

/-- Method `Service.index`: the position found by the loop, and 0 when the loop finds none. -/
def index (services : List Service) (s : Service) : ℕ :=
  match indexLoop s.Id services 0 with
  | some k => k
  | none => 0

/-- Function `updateService`: `CoreApp.Services[index] = service`; `none` is the index out of
range panic. -/
def updateService (services : List Service) (service : Service) : Option (List Service) :=
  if index services service < services.length then
    some (services.set (index services service) service)
  else none

/-- Method `Service.Delete`: `dbError` is the error of `servicesDB().Delete(u)`.  Returns the
registry and the returned error; `none` is the slice bounds panic of `slice[i+1:]`. -/
def Delete (services : List Service) (u : Service) (dbError : Option String) :
    Option (List Service × Option String) :=
  let i := index services u
  match dbError with
  | some e => some (services, some e)
  | none =>
    if i + 1 ≤ services.length then
      some (reorderServices (services.take i ++ services.drop (i + 1)), none)
    else none

/-- Method `Service.Update`: `dbError` is the error of `servicesDB().Update(u)`.  Returns the
registry and the returned error; `none` is the panic of `updateService`. -/
def Update (services : List Service) (u : Service) (restart : Bool)
    (dbError : Option String) : Option (List Service × Option String) :=
  match dbError with
  | some e => some (services, some e)
  | none =>
    let u1 := if restart then { u with SleepDuration := wrapInt64 (u.Interval * 1000000000) }
      else u
    match updateService (reorderServices services) u1 with
    | some services1 => some (services1, none)
    | none => none

/-- Method `Service.Create` at the instant `now`: `db` is the outcome of `servicesDB().Create(u)`,
an error or the id the stored row has.  Returns the registry, the service `u` as the
call leaves it, the returned id and the returned error. -/
def Create (services : List Service) (u : Service) (_check : Bool) (now : Int)
    (db : Except String Int) : List Service × Service × Int × Option String :=
  match db with
  | Except.error e => (services, { u with CreatedAt := now }, 0, some e)
  | Except.ok id =>
    (reorderServices (services ++ [{ u with CreatedAt := now, Id := id }]),
      { u with CreatedAt := now, Id := id }, id, none)

/-- A service with the given id and order position, used for concrete evaluations. -/
def sampleService (id order : Int) : Service :=
  { Id := id, Name := "svc", Interval := 60, Order := order, Online := true,
    Online24Hours := FP.fin 0, SleepDuration := 0, CreatedAt := 0 }

/-- Registry order: every entry has an `Order` at least that of every later entry. -/
def Ordered (services : List Service) : Prop :=
  services.Pairwise (fun a b => b.Order ≤ a.Order)

instance (services : List Service) : Decidable (Ordered services) := by
  unfold Ordered; infer_instance

/-! ## Rounding lemmas -/

theorem log2Fuel_spec : ∀ (fuel n : ℕ), n ≠ 0 → n ≤ fuel →
    2 ^ log2Fuel fuel n ≤ n ∧ n < 2 ^ (log2Fuel fuel n + 1)
  | 0, n, h0, h => by omega
  | fuel + 1, n, h0, h => by
    unfold log2Fuel
    split
    · have h1 : n = 1 := by omega
      subst h1
      simp
    · have ih := log2Fuel_spec fuel (n / 2) (by omega) (by omega)
      constructor
      · rw [pow_succ]
        omega
      · rw [pow_succ]
        omega

theorem ilog2_spec {q : ℚ} (hq : 0 < q) :
    (2 : ℚ) ^ ilog2 q ≤ q ∧ q < (2 : ℚ) ^ (ilog2 q + 1) := by
  have hnum : 0 < q.num := Rat.num_pos.mpr hq
  have hn0 : q.num.natAbs ≠ 0 := by
    simpa using hnum.ne'
  have hd0 : q.den ≠ 0 := q.den_nz
  have h1 : (q.num : ℚ) = (q.num.natAbs : ℚ) := by
    have h0 : q.num = (q.num.natAbs : ℤ) := (Int.natAbs_of_nonneg hnum.le).symm
    conv_lhs => rw [h0]
    exact Int.cast_natCast _
  have hqe : (q.num.natAbs : ℚ) / (q.den : ℚ) = q := by
    rw [← h1]
    exact Rat.num_div_den q
  obtain ⟨ha1, ha2⟩ := log2Fuel_spec _ _ hn0 le_rfl
  obtain ⟨hb1, hb2⟩ := log2Fuel_spec _ _ hd0 le_rfl
  have hdpos : (0 : ℚ) < (q.den : ℚ) := by exact_mod_cast Nat.pos_of_ne_zero hd0
  have ha1q : (2 : ℚ) ^ log2Nat q.num.natAbs ≤ (q.num.natAbs : ℚ) := by exact_mod_cast ha1
  have ha2q : (q.num.natAbs : ℚ) < (2 : ℚ) ^ (log2Nat q.num.natAbs + 1) := by exact_mod_cast ha2
  have hb1q : (2 : ℚ) ^ log2Nat q.den ≤ (q.den : ℚ) := by exact_mod_cast hb1
  have hb2q : (q.den : ℚ) < (2 : ℚ) ^ (log2Nat q.den + 1) := by exact_mod_cast hb2
  have hpa : (0 : ℚ) < (2 : ℚ) ^ log2Nat q.num.natAbs := by positivity
  have hpb : (0 : ℚ) < (2 : ℚ) ^ log2Nat q.den := by positivity
  have hpb1 : (0 : ℚ) < (2 : ℚ) ^ (log2Nat q.den + 1) := by positivity
  have e1 : (2 : ℚ) ^ ((log2Nat q.num.natAbs : ℤ) - (log2Nat q.den : ℤ))
      = (2 : ℚ) ^ log2Nat q.num.natAbs / (2 : ℚ) ^ log2Nat q.den := by
    rw [zpow_sub₀ (two_ne_zero), zpow_natCast, zpow_natCast]
  have e2 : (2 : ℚ) ^ ((log2Nat q.num.natAbs : ℤ) - (log2Nat q.den : ℤ) + 1)
      = (2 : ℚ) ^ (log2Nat q.num.natAbs + 1) / (2 : ℚ) ^ log2Nat q.den := by
    rw [zpow_add₀ (two_ne_zero), e1, pow_succ]
    simp only [zpow_one]
    ring
  have e3 : (2 : ℚ) ^ ((log2Nat q.num.natAbs : ℤ) - (log2Nat q.den : ℤ) - 1)
      = (2 : ℚ) ^ log2Nat q.num.natAbs / (2 : ℚ) ^ (log2Nat q.den + 1) := by
    rw [zpow_sub₀ (two_ne_zero), e1, pow_succ]
    simp only [zpow_one]
    field_simp
  unfold ilog2
  rw [if_neg (not_le.mpr hq)]
  split
  · rename_i hc
    have hcq : (q.den : ℚ) * (2 : ℚ) ^ log2Nat q.num.natAbs
        ≤ (q.num.natAbs : ℚ) * (2 : ℚ) ^ log2Nat q.den := by exact_mod_cast hc
    rw [e1, e2]
    constructor
    · calc (2 : ℚ) ^ log2Nat q.num.natAbs / (2 : ℚ) ^ log2Nat q.den
          ≤ (q.num.natAbs : ℚ) / (q.den : ℚ) := by
            rw [div_le_div_iff₀ hpb hdpos]
            linarith
        _ = q := hqe
    · calc q = (q.num.natAbs : ℚ) / (q.den : ℚ) := hqe.symm
        _ < (2 : ℚ) ^ (log2Nat q.num.natAbs + 1) / (2 : ℚ) ^ log2Nat q.den := by
            rw [div_lt_div_iff₀ hdpos hpb]
            calc (q.num.natAbs : ℚ) * (2 : ℚ) ^ log2Nat q.den
                < (2 : ℚ) ^ (log2Nat q.num.natAbs + 1) * (2 : ℚ) ^ log2Nat q.den :=
                  mul_lt_mul_of_pos_right ha2q hpb
              _ ≤ (2 : ℚ) ^ (log2Nat q.num.natAbs + 1) * (q.den : ℚ) :=
                  mul_le_mul_of_nonneg_left hb1q (by positivity)
  · rename_i hc
    have hcq : (q.num.natAbs : ℚ) * (2 : ℚ) ^ log2Nat q.den
        < (q.den : ℚ) * (2 : ℚ) ^ log2Nat q.num.natAbs := by exact_mod_cast not_le.mp hc
    have e4 : ((log2Nat q.num.natAbs : ℤ) - (log2Nat q.den : ℤ) - 1 + 1)
        = (log2Nat q.num.natAbs : ℤ) - (log2Nat q.den : ℤ) := by ring
    rw [e4, e1, e3]
    constructor
    · calc (2 : ℚ) ^ log2Nat q.num.natAbs / (2 : ℚ) ^ (log2Nat q.den + 1)
          ≤ (q.num.natAbs : ℚ) / (q.den : ℚ) := by
            rw [div_le_div_iff₀ hpb1 hdpos]
            calc (2 : ℚ) ^ log2Nat q.num.natAbs * (q.den : ℚ)
                ≤ (2 : ℚ) ^ log2Nat q.num.natAbs * (2 : ℚ) ^ (log2Nat q.den + 1) :=
                  mul_le_mul_of_nonneg_left hb2q.le hpa.le
              _ ≤ (q.num.natAbs : ℚ) * (2 : ℚ) ^ (log2Nat q.den + 1) :=
                  mul_le_mul_of_nonneg_right ha1q hpb1.le
        _ = q := hqe
    · calc q = (q.num.natAbs : ℚ) / (q.den : ℚ) := hqe.symm
        _ < (2 : ℚ) ^ log2Nat q.num.natAbs / (2 : ℚ) ^ log2Nat q.den := by
            rw [div_lt_div_iff₀ hdpos hpb]
            linarith

theorem ilog2_lt_of_lt {q : ℚ} {k : ℤ} (hq : 0 < q) (h : q < (2 : ℚ) ^ k) : ilog2 q < k := by
  by_contra hk
  have h1 : (2 : ℚ) ^ k ≤ (2 : ℚ) ^ ilog2 q := zpow_le_zpow_right₀ (by norm_num) (not_lt.mp hk)
  linarith [(ilog2_spec hq).1]

theorem le_ilog2_of_le {q : ℚ} {k : ℤ} (hq : 0 < q) (h : (2 : ℚ) ^ k ≤ q) : k ≤ ilog2 q := by
  by_contra hk
  have h1 : (2 : ℚ) ^ (ilog2 q + 1) ≤ (2 : ℚ) ^ k :=
    zpow_le_zpow_right₀ (by norm_num) (by omega)
  linarith [(ilog2_spec hq).2]

theorem roundHalfEven_le {q : ℚ} {N : ℤ} (h : q ≤ N) : roundHalfEven q ≤ N := by
  have hf : (Int.floor q : ℚ) ≤ q := Int.floor_le q
  have hfN : Int.floor q ≤ N := by exact_mod_cast hf.trans h
  have hstep : ¬ (q - Int.floor q < 1 / 2) → Int.floor q + 1 ≤ N := by
    intro hh
    by_contra hc
    have hFN : Int.floor q = N := by omega
    have : q - Int.floor q ≤ 0 := by rw [hFN]; linarith
    exact hh (by linarith)
  unfold roundHalfEven
  simp only
  split_ifs with h1 h2 h3
  · exact hfN
  · exact hstep h1
  · exact hfN
  · exact hstep h1

theorem le_roundHalfEven {q : ℚ} {N : ℤ} (h : (N : ℚ) ≤ q) : N ≤ roundHalfEven q := by
  have hfN : N ≤ Int.floor q := Int.le_floor.mpr h
  unfold roundHalfEven
  simp only
  split_ifs <;> omega

theorem roundQ_le {P : ℕ} {E : ℤ} {q : ℚ} {N j : ℤ} (hq : q ≤ (N : ℚ) * (2 : ℚ) ^ j)
    (he : ulpExp P E q ≤ j) : roundQ P E q ≤ (N : ℚ) * (2 : ℚ) ^ j := by
  obtain ⟨d, hd⟩ : ∃ d : ℕ, j = ulpExp P E q + d :=
    ⟨(j - ulpExp P E q).toNat, by omega⟩
  have hpos : (0 : ℚ) < (2 : ℚ) ^ ulpExp P E q := zpow_pos (by norm_num) _
  have hN : (N : ℚ) * (2 : ℚ) ^ j = ((N * 2 ^ d : ℤ) : ℚ) * (2 : ℚ) ^ ulpExp P E q := by
    rw [hd, zpow_add₀ (two_ne_zero), zpow_natCast]
    push_cast
    ring
  have h1 : q / (2 : ℚ) ^ ulpExp P E q ≤ ((N * 2 ^ d : ℤ) : ℚ) := by
    rw [div_le_iff₀ hpos, ← hN]
    exact hq
  have h2 := roundHalfEven_le h1
  rw [hN]
  unfold roundQ
  exact mul_le_mul_of_nonneg_right (by exact_mod_cast h2) hpos.le

theorem le_roundQ {P : ℕ} {E : ℤ} {q : ℚ} {N j : ℤ} (hq : (N : ℚ) * (2 : ℚ) ^ j ≤ q)
    (he : ulpExp P E q ≤ j) : (N : ℚ) * (2 : ℚ) ^ j ≤ roundQ P E q := by
  obtain ⟨d, hd⟩ : ∃ d : ℕ, j = ulpExp P E q + d :=
    ⟨(j - ulpExp P E q).toNat, by omega⟩
  have hpos : (0 : ℚ) < (2 : ℚ) ^ ulpExp P E q := zpow_pos (by norm_num) _
  have hN : (N : ℚ) * (2 : ℚ) ^ j = ((N * 2 ^ d : ℤ) : ℚ) * (2 : ℚ) ^ ulpExp P E q := by
    rw [hd, zpow_add₀ (two_ne_zero), zpow_natCast]
    push_cast
    ring
  have h1 : ((N * 2 ^ d : ℤ) : ℚ) ≤ q / (2 : ℚ) ^ ulpExp P E q := by
    rw [le_div_iff₀ hpos, ← hN]
    exact hq
  have h2 := le_roundHalfEven h1
  rw [hN]
  unfold roundQ
  exact mul_le_mul_of_nonneg_right (by exact_mod_cast h2) hpos.le

theorem ulpExp_le {P : ℕ} {E : ℤ} {q : ℚ} {j : ℤ} (hq : q ≠ 0)
    (h : |q| < (2 : ℚ) ^ (j + P)) (hj : E ≤ j) : ulpExp P E q ≤ j := by
  unfold ulpExp
  have := ilog2_lt_of_lt (abs_pos.mpr hq) h
  exact max_le (by omega) hj

theorem roundQ_nonneg {P : ℕ} {E : ℤ} {q : ℚ} (hq : 0 ≤ q) : 0 ≤ roundQ P E q := by
  have := le_roundQ (P := P) (E := E) (q := q) (N := 0)
    (j := ulpExp P E q) (by simpa using hq) le_rfl
  simpa using this

theorem roundQ_nonpos {P : ℕ} {E : ℤ} {q : ℚ} (hq : q ≤ 0) : roundQ P E q ≤ 0 := by
  have := roundQ_le (P := P) (E := E) (q := q) (N := 0)
    (j := ulpExp P E q) (by simpa using hq) le_rfl
  simpa using this

/-! ## Decimal text lemmas -/

theorem digitChar_facts {d : ℕ} (h : d < 10) :
    (Nat.digitChar d).isDigit = true ∧ (Nat.digitChar d).toNat - 48 = d ∧
    Nat.digitChar d ≠ '.' ∧ Nat.digitChar d ≠ '-' ∧ Nat.digitChar d ≠ '+' ∧
    Nat.digitChar d ≠ 'N' := by
  interval_cases d <;> decide

theorem natCharsFuel_spec : ∀ (fuel n : ℕ), n < fuel →
    (∃ d rest, d < 10 ∧ natCharsFuel fuel n = Nat.digitChar d :: rest) ∧
    (∀ c ∈ natCharsFuel fuel n, ∃ d, d < 10 ∧ c = Nat.digitChar d) ∧
    (natCharsFuel fuel n).foldl
      (fun acc c => acc.bind fun a =>
        if c.isDigit then some (a * 10 + (c.toNat - 48)) else none) (some 0) = some n
  | 0, n, h => by omega
  | fuel + 1, n, h => by
    unfold natCharsFuel
    split
    · rename_i hn
      obtain ⟨h1, h2, -⟩ := digitChar_facts hn
      refine ⟨⟨n, [], hn, rfl⟩, ?_, ?_⟩
      · intro c hc
        exact ⟨n, hn, by simpa using hc⟩
      · simp [h1, h2]
    · rename_i hn
      obtain ⟨⟨d, rest, hd, hrest⟩, hall, hfold⟩ :=
        natCharsFuel_spec fuel (n / 10) (by omega)
      have hm : n % 10 < 10 := Nat.mod_lt _ (by norm_num)
      obtain ⟨h1, h2, -⟩ := digitChar_facts hm
      refine ⟨⟨d, rest ++ [Nat.digitChar (n % 10)], hd, by rw [hrest]; rfl⟩, ?_, ?_⟩
      · intro c hc
        rcases List.mem_append.mp hc with hc | hc
        · exact hall c hc
        · exact ⟨n % 10, hm, by simpa using hc⟩
      · rw [List.foldl_append, hfold]
        simp only [List.foldl_cons, List.foldl_nil, Option.some_bind, h1, h2, if_true]
        congr 1
        omega

theorem natChars_head (n : ℕ) : ∃ d rest, d < 10 ∧ natChars n = Nat.digitChar d :: rest :=
  (natCharsFuel_spec (n + 1) n (by omega)).1

theorem natChars_digits (n : ℕ) : ∀ c ∈ natChars n, ∃ d, d < 10 ∧ c = Nat.digitChar d :=
  (natCharsFuel_spec (n + 1) n (by omega)).2.1

theorem digitsVal_natChars (n : ℕ) : digitsVal (natChars n) = some n := by
  obtain ⟨d, rest, -, hrest⟩ := natChars_head n
  unfold digitsVal
  rw [if_neg (by rw [hrest]; simp)]
  exact (natCharsFuel_spec (n + 1) n (by omega)).2.2

theorem fixedChars_two (n : ℕ) :
    fixedChars 2 n
      = natChars (n / 100) ++ '.' :: [Nat.digitChar (n / 10 % 10), Nat.digitChar (n % 10)] := by
  simp [fixedChars, fracChars]

theorem digitsVal_two (n : ℕ) :
    digitsVal [Nat.digitChar (n / 10 % 10), Nat.digitChar (n % 10)] = some (n % 100) := by
  have hm1 : n / 10 % 10 < 10 := Nat.mod_lt _ (by norm_num)
  have hm0 : n % 10 < 10 := Nat.mod_lt _ (by norm_num)
  obtain ⟨a1, a2, -⟩ := digitChar_facts hm1
  obtain ⟨b1, b2, -⟩ := digitChar_facts hm0
  simp only [digitsVal, List.foldl_cons, List.foldl_nil, Option.some_bind, a1, a2, b1, b2,
    if_true]
  simp only [reduceCtorEq, if_false]
  congr 1
  omega

theorem parseDecimal_fixedChars_two (n : ℕ) :
    parseDecimal (fixedChars 2 n) = some ((n : ℚ) / 100) := by
  obtain ⟨d, rest, hd, hrest⟩ := natChars_head (n / 100)
  obtain ⟨-, -, hdot, hminus, hplus, -⟩ := digitChar_facts hd
  have hall : ∀ c ∈ natChars (n / 100), (c != '.') = true := by
    intro c hc
    obtain ⟨d1, hd1, rfl⟩ := natChars_digits _ c hc
    simpa using (digitChar_facts hd1).2.2.1
  have hhead : (fixedChars 2 n).head? = some (Nat.digitChar d) := by
    rw [fixedChars_two, hrest]
    rfl
  have htake : (fixedChars 2 n).takeWhile (fun c => c != '.') = natChars (n / 100) := by
    rw [fixedChars_two, List.takeWhile_append_of_pos hall]
    simp
  have hdrop : (fixedChars 2 n).dropWhile (fun c => c != '.')
      = '.' :: [Nat.digitChar (n / 10 % 10), Nat.digitChar (n % 10)] := by
    rw [fixedChars_two, List.dropWhile_append_of_pos hall]
    simp
  have hval : ((n / 100 : ℕ) : ℚ) + ((n % 100 : ℕ) : ℚ) / 10 ^ 2 = (n : ℚ) / 100 := by
    have h := Nat.div_add_mod n 100
    have hq : (n : ℚ) = 100 * ((n / 100 : ℕ) : ℚ) + ((n % 100 : ℕ) : ℚ) := by exact_mod_cast h.symm
    rw [hq]
    ring
  unfold parseDecimal
  simp only [hhead, Option.some.injEq, hminus, hplus, or_self, if_false, decide_False, htake,
    hdrop, digitsVal_natChars, digitsVal_two, Option.some_bind, Option.map_some',
    List.length_cons, List.length_nil]
  simpa using hval

/-! ## Range of the rounded percent -/

theorem toFP_fin {P : ℕ} {E : ℤ} {emax : ℕ} {q : ℚ}
    (h : |roundQ P E q| < (2 : ℚ) ^ emax) :
    toFP P E emax q = FP.fin (roundQ P E q) := by
  unfold toFP
  rw [if_neg (not_le.mpr h)]

theorem roundQ_mem {P : ℕ} {E : ℤ} {q : ℚ} {N j : ℤ} (h0 : 0 ≤ q)
    (h1 : q ≤ (N : ℚ) * (2 : ℚ) ^ j) (hN : (N : ℚ) * (2 : ℚ) ^ j < (2 : ℚ) ^ (j + P))
    (hj : E ≤ j) :
    0 ≤ roundQ P E q ∧ roundQ P E q ≤ (N : ℚ) * (2 : ℚ) ^ j := by
  refine ⟨roundQ_nonneg h0, ?_⟩
  rcases eq_or_ne q 0 with rfl | hq
  · exact (roundQ_nonpos le_rfl).trans h1
  · exact roundQ_le h1 (ulpExp_le hq (by rw [abs_of_nonneg h0]; exact h1.trans_lt hN) hj)

theorem one_le_roundQ {P : ℕ} {E : ℤ} (hp : 1 ≤ P) (he : E ≤ 0) {q : ℚ}
    (h : 1 ≤ q) : 1 ≤ roundQ P E q := by
  have hq : 0 < q := by linarith
  have hk : 0 ≤ ilog2 q := le_ilog2_of_le hq (by simpa using h)
  have hp1 : (1 : ℤ) ≤ (P : ℤ) := by exact_mod_cast hp
  have he1 : ulpExp P E q ≤ ilog2 q := by
    unfold ulpExp
    rw [abs_of_pos hq]
    exact max_le (by omega) (by omega)
  have h2 := le_roundQ (P := P) (E := E) (N := 1) (j := ilog2 q)
    (by simpa using (ilog2_spec hq).1) he1
  calc (1 : ℚ) ≤ (2 : ℚ) ^ ilog2 q := one_le_zpow₀ (by norm_num) hk
    _ ≤ roundQ P E q := by simpa using h2

theorem neg_pow_le_roundQ {P : ℕ} {E : ℤ} (hp : 1 ≤ P) {q : ℚ} {K : ℤ}
    (hK : E ≤ K) (h : -(2 : ℚ) ^ K ≤ q) : -(2 : ℚ) ^ K ≤ roundQ P E q := by
  have hpos : (0 : ℚ) < (2 : ℚ) ^ K := zpow_pos (by norm_num) _
  have hp1 : (1 : ℤ) ≤ (P : ℤ) := by exact_mod_cast hp
  rcases le_or_lt 0 q with h0 | h0
  · have := roundQ_nonneg (P := P) (E := E) h0
    linarith
  · have habs : |q| < (2 : ℚ) ^ (K + P) := by
      rw [abs_of_neg h0]
      calc -q ≤ (2 : ℚ) ^ K := by linarith
        _ < (2 : ℚ) ^ (K + P) := zpow_lt_zpow_right₀ (by norm_num) (by omega)
    have h2 := le_roundQ (P := P) (E := E) (N := -1) (j := K)
      (by simpa using h) (ulpExp_le h0.ne habs hK)
    simpa using h2

/-- The `float64` conversion of a positive 64-bit count is finite and at least 1. -/
theorem float64OfCount_pos {n : ℕ} (h0 : n ≠ 0) (h : n < 2 ^ 64) :
    ∃ x : ℚ, float64OfCount n = FP.fin x ∧ 1 ≤ x ∧ x ≤ 2 ^ 64 := by
  have hq1 : (1 : ℚ) ≤ (n : ℚ) := by exact_mod_cast Nat.one_le_iff_ne_zero.mpr h0
  have hq2 : (n : ℚ) ≤ ((1 : ℤ) : ℚ) * (2 : ℚ) ^ (64 : ℤ) := by
    have : (n : ℚ) ≤ 2 ^ 64 := by exact_mod_cast h.le
    norm_num
    linarith
  have hb := roundQ_mem (P := 53) (E := -1074) (by linarith) hq2 (by norm_num)
    (by norm_num)
  have hl := one_le_roundQ (P := 53) (E := -1074) (by norm_num) (by norm_num) hq1
  refine ⟨roundQ 53 (-1074) n, ?_, hl, ?_⟩
  · unfold float64OfCount toF64
    apply toFP_fin
    rw [abs_of_nonneg hb.1]
    calc roundQ 53 (-1074) n ≤ ((1 : ℤ) : ℚ) * (2 : ℚ) ^ (64 : ℤ) := hb.2
      _ < (2 : ℚ) ^ 1024 := by norm_num
  · have := hb.2
    norm_num at this
    linarith

/-- The clamped percent computed by `OnlineSince`, `AvgUptime` and `TotalUptime` from
two positive 64-bit counts is a finite value between 0 and 100. -/
theorem percent_range {failed total : ℕ} (hf0 : failed ≠ 0) (ht0 : total ≠ 0)
    (hf : failed < 2 ^ 64) (ht : total < 2 ^ 64) :
    ∃ a : ℚ,
      (if flt (fsub (FP.fin 100)
            (fmul (fdiv (float64OfCount failed) (float64OfCount total)) (FP.fin 100)))
          (FP.fin 0) = true then FP.fin 0
        else fsub (FP.fin 100)
          (fmul (fdiv (float64OfCount failed) (float64OfCount total)) (FP.fin 100)))
        = FP.fin a ∧ 0 ≤ a ∧ a ≤ 100 := by
  obtain ⟨x, hx, hx1, hx2⟩ := float64OfCount_pos hf0 hf
  obtain ⟨y, hy, hy1, hy2⟩ := float64OfCount_pos ht0 ht
  have hy0 : y ≠ 0 := by linarith
  -- the quotient
  have hq0 : 0 ≤ x / y := div_nonneg (by linarith) (by linarith)
  have hq1 : x / y ≤ ((1 : ℤ) : ℚ) * (2 : ℚ) ^ (64 : ℤ) := by
    have : x / y ≤ x := div_le_self (by linarith) hy1
    norm_num
    linarith
  have hqb := roundQ_mem (P := 53) (E := -1074) hq0 hq1 (by norm_num) (by norm_num)
  have hdiv : fdiv (float64OfCount failed) (float64OfCount total)
      = FP.fin (roundQ 53 (-1074) (x / y)) := by
    rw [hx, hy]
    simp only [fdiv, hy0, if_false]
    unfold toF64
    apply toFP_fin
    rw [abs_of_nonneg hqb.1]
    calc roundQ 53 (-1074) (x / y) ≤ ((1 : ℤ) : ℚ) * (2 : ℚ) ^ (64 : ℤ) := hqb.2
      _ < (2 : ℚ) ^ 1024 := by norm_num
  -- the product
  have hm1 : roundQ 53 (-1074) (x / y) * 100 ≤ ((1 : ℤ) : ℚ) * (2 : ℚ) ^ (71 : ℤ) := by
    have := hqb.2
    norm_num at this ⊢
    linarith
  have hmb := roundQ_mem (P := 53) (E := -1074)
    (mul_nonneg hqb.1 (by norm_num : (0 : ℚ) ≤ 100)) hm1 (by norm_num) (by norm_num)
  have hmul : fmul (FP.fin (roundQ 53 (-1074) (x / y))) (FP.fin 100)
      = FP.fin (roundQ 53 (-1074) (roundQ 53 (-1074) (x / y) * 100)) := by
    simp only [fmul]
    unfold toF64
    apply toFP_fin
    rw [abs_of_nonneg hmb.1]
    calc roundQ 53 (-1074) (roundQ 53 (-1074) (x / y) * 100)
        ≤ ((1 : ℤ) : ℚ) * (2 : ℚ) ^ (71 : ℤ) := hmb.2
      _ < (2 : ℚ) ^ 1024 := by norm_num
  -- the difference
  set p := roundQ 53 (-1074) (roundQ 53 (-1074) (x / y) * 100) with hp
  have hp2 : p ≤ (2 : ℚ) ^ (71 : ℤ) := by simpa using hmb.2
  have hs_hi : roundQ 53 (-1074) (100 - p) ≤ 100 := by
    rcases le_or_lt (100 - p) 0 with h0 | h0
    · exact (roundQ_nonpos h0).trans (by norm_num)
    · have := (roundQ_mem (P := 53) (E := -1074) (N := 25) (j := 2) h0.le
        (by norm_num; linarith [hmb.1]) (by norm_num) (by norm_num)).2
      norm_num at this
      exact this
  have hs_lo : -(2 : ℚ) ^ (71 : ℤ) ≤ roundQ 53 (-1074) (100 - p) :=
    neg_pow_le_roundQ (by norm_num) (by norm_num) (by linarith)
  have hsub : fsub (FP.fin 100) (FP.fin p) = FP.fin (roundQ 53 (-1074) (100 - p)) := by
    simp only [fsub]
    unfold toF64
    apply toFP_fin
    rw [abs_lt]
    constructor
    · calc -(2 : ℚ) ^ 1024 < -(2 : ℚ) ^ (71 : ℤ) := by norm_num
        _ ≤ roundQ 53 (-1074) (100 - p) := hs_lo
    · calc roundQ 53 (-1074) (100 - p) ≤ 100 := hs_hi
        _ < (2 : ℚ) ^ 1024 := by norm_num
  rw [hdiv, hmul, hsub]
  by_cases hneg : roundQ 53 (-1074) (100 - p) < 0
  · refine ⟨0, ?_, le_rfl, by norm_num⟩
    simp [flt, hneg]
  · refine ⟨roundQ 53 (-1074) (100 - p), ?_, not_lt.mp hneg, hs_hi⟩
    simp [flt, hneg]

theorem Sprintf_two_of_range {a : ℚ} (h0 : 0 ≤ a) (h1 : a ≤ 100) :
    ∃ n : ℕ, n ≤ 10000 ∧ Sprintf_f 2 (FP.fin a) = String.mk (fixedChars 2 n) := by
  have hl : (0 : ℤ) ≤ roundHalfEven (|a| * 10 ^ 2) :=
    le_roundHalfEven (by rw [abs_of_nonneg h0]; norm_num; linarith)
  have hu : roundHalfEven (|a| * 10 ^ 2) ≤ (10000 : ℤ) :=
    roundHalfEven_le (by rw [abs_of_nonneg h0]; norm_num; linarith)
  refine ⟨(roundHalfEven (|a| * 10 ^ 2)).toNat, by omega, ?_⟩
  simp [Sprintf_f, not_lt.mpr h0]

theorem ParseFloat_fixedChars_two (n : ℕ) :
    ParseFloat (String.mk (fixedChars 2 n)) = toF64 ((n : ℚ) / 100) := by
  obtain ⟨d, rest, hd, hrest⟩ := natChars_head (n / 100)
  obtain ⟨-, -, -, hminus, hplus, hN⟩ := digitChar_facts hd
  have hcs : fixedChars 2 n
      = Nat.digitChar d :: (rest ++ '.' :: [Nat.digitChar (n / 10 % 10), Nat.digitChar (n % 10)]) := by
    rw [fixedChars_two, hrest]
    rfl
  have h1 : String.mk (fixedChars 2 n) ≠ "NaN" := by
    intro h
    have h2 := congrArg String.data h
    rw [hcs] at h2
    exact hN (List.cons.inj h2).1
  have h2 : String.mk (fixedChars 2 n) ≠ "+Inf" := by
    intro h
    have h2 := congrArg String.data h
    rw [hcs] at h2
    exact hplus (List.cons.inj h2).1
  have h3 : String.mk (fixedChars 2 n) ≠ "-Inf" := by
    intro h
    have h2 := congrArg String.data h
    rw [hcs] at h2
    exact hminus (List.cons.inj h2).1
  unfold ParseFloat
  rw [if_neg h1, if_neg h2, if_neg h3]
  simp only [parseDecimal_fixedChars_two]

theorem toF64_hundredths {n : ℕ} (h : n ≤ 10000) :
    ∃ v : ℚ, toF64 ((n : ℚ) / 100) = FP.fin v ∧ 0 ≤ v ∧ v ≤ 100 := by
  have hn : (n : ℚ) ≤ 10000 := by exact_mod_cast h
  have hn0 : (0 : ℚ) ≤ (n : ℚ) := by positivity
  have hb := roundQ_mem (P := 53) (E := -1074) (q := (n : ℚ) / 100) (N := 25) (j := 2)
    (by positivity) (by norm_num; linarith) (by norm_num) (by norm_num)
  have hb2 : roundQ 53 (-1074) ((n : ℚ) / 100) ≤ 100 := by
    have := hb.2
    norm_num at this
    exact this
  refine ⟨roundQ 53 (-1074) ((n : ℚ) / 100), ?_, hb.1, hb2⟩
  unfold toF64
  apply toFP_fin
  rw [abs_of_nonneg hb.1]
  calc roundQ 53 (-1074) ((n : ℚ) / 100) ≤ 100 := hb2
    _ < (2 : ℚ) ^ 1024 := by norm_num

theorem float32_range {v : ℚ} (h0 : 0 ≤ v) (h1 : v ≤ 100) :
    ∃ w : ℚ, float32 (FP.fin v) = FP.fin w ∧ 0 ≤ w ∧ w ≤ 100 := by
  have hb := roundQ_mem (P := 24) (E := -149) (q := v) (N := 25) (j := 2)
    h0 (by norm_num; linarith) (by norm_num) (by norm_num)
  have hb2 : roundQ 24 (-149) v ≤ 100 := by
    have := hb.2
    norm_num at this
    exact this
  refine ⟨roundQ 24 (-149) v, ?_, hb.1, hb2⟩
  unfold float32 toF32
  apply toFP_fin
  rw [abs_of_nonneg hb.1]
  calc roundQ 24 (-149) v ≤ 100 := hb2
    _ < (2 : ℚ) ^ 128 := by norm_num

/-- The text `TotalUptime` returns is the numeral of a number between 0 and 100 as
soon as one of the two counts is not zero. -/
theorem TotalUptime_defined (hits failures : ℕ) (hh : hits < 2 ^ 64)
    (hf : failures < 2 ^ 64) (h : hits ≠ 0 ∨ failures ≠ 0) :
    ∃ v : ℚ, parseDecimal (TotalUptime hits failures).data = some v ∧ 0 ≤ v ∧ v ≤ 100 := by
  have hzero : float64OfCount 0 = FP.fin 0 := by decide!
  have h100 : parseDecimal ("100" : String).data = some 100 := by decide!
  have h000 : parseDecimal ("0.00" : String).data = some 0 := by decide!
  by_cases hf0 : failures = 0
  · have hh0 : hits ≠ 0 := by
      rcases h with h | h
      · exact h
      · exact absurd hf0 h
    obtain ⟨y, hy, hy1, -⟩ := float64OfCount_pos hh0 hh
    have hy0 : y ≠ 0 := by linarith
    have e1 : toF64 0 = FP.fin 0 := by decide!
    have e2 : toF64 100 = FP.fin 100 := by decide!
    have e3 : Sprintf_f 2 (FP.fin 100) = "100.00" := by decide!
    refine ⟨100, ?_, by norm_num, le_rfl⟩
    subst hf0
    simp only [TotalUptime, hzero, hy, fdiv, hy0, if_false, zero_div, e1, fmul, zero_mul,
      fsub, sub_zero, e2, flt]
    norm_num [e3]
    exact h100
  by_cases hh0 : hits = 0
  · obtain ⟨x, hx, hx1, -⟩ := float64OfCount_pos hf0 hf
    have hx0 : x ≠ 0 := by linarith
    have hxn : ¬ x < 0 := by linarith
    have e3 : Sprintf_f 2 (FP.fin 0) = "0.00" := by decide!
    refine ⟨0, ?_, le_rfl, by norm_num⟩
    subst hh0
    simp only [TotalUptime, hzero, hx, fdiv, if_true, hx0, if_false, hxn, decide_False, fmul]
    norm_num [fsub, flt, e3]
    exact h000
  obtain ⟨a, ha, ha0, ha1⟩ := percent_range hf0 hh0 hf hh
  obtain ⟨n, hn, hfmt⟩ := Sprintf_two_of_range ha0 ha1
  simp only [TotalUptime]
  rw [ha, hfmt]
  split
  · exact ⟨100, h100, by norm_num, le_rfl⟩
  · refine ⟨(n : ℚ) / 100, parseDecimal_fixedChars_two n, by positivity, ?_⟩
    have : (n : ℚ) ≤ 10000 := by exact_mod_cast hn
    linarith

/-! ## Registry lemmas -/

theorem indexLoop_none {id : Int} {l : List Service} {k : ℕ}
    (h : indexLoop id l k = none) : ∀ s ∈ l, s.Id ≠ id := by
  induction l generalizing k with
  | nil => simp
  | cons x xs ih =>
    simp only [indexLoop] at h
    split at h
    · simp at h
    · intro s hs
      rcases List.mem_cons.mp hs with rfl | hs
      · exact fun e => by simp_all
      · exact ih h s hs

theorem indexLoop_some {id : Int} {l : List Service} {k j : ℕ}
    (h : indexLoop id l k = some j) :
    ∃ i, j = k + i ∧ ∃ hi : i < l.length, (l.get ⟨i, hi⟩).Id = id := by
  induction l generalizing k with
  | nil => simp [indexLoop] at h
  | cons x xs ih =>
    simp only [indexLoop] at h
    split at h
    · rename_i hx
      refine ⟨0, by simpa using (Option.some.inj h).symm, by simp, ?_⟩
      simpa using hx.symm
    · obtain ⟨i, hj, hi, hid⟩ := ih h
      refine ⟨i + 1, by omega, by simpa using hi, ?_⟩
      simpa using hid

theorem index_of_mem {l : List Service} {u : Service} (h : ∃ s ∈ l, s.Id = u.Id) :
    ∃ hi : index l u < l.length, (l.get ⟨index l u, hi⟩).Id = u.Id := by
  unfold index
  cases hl : indexLoop u.Id l 0 with
  | none =>
    obtain ⟨s, hs, hid⟩ := h
    exact absurd hid (indexLoop_none hl s hs)
  | some j =>
    obtain ⟨i, hj, hi, hid⟩ := indexLoop_some hl
    have : j = i := by omega
    subst this
    exact ⟨hi, hid⟩

theorem reorderServices_perm (l : List Service) : (reorderServices l).Perm l :=
  List.perm_insertionSort _ l

theorem mem_reorderServices {l : List Service} {s : Service} :
    s ∈ reorderServices l ↔ s ∈ l :=
  (reorderServices_perm l).mem_iff

theorem reorderServices_ordered (l : List Service) : Ordered (reorderServices l) := by
  unfold Ordered reorderServices
  haveI : IsTotal Service (fun a b => ServiceOrder.Less b a = false) :=
    ⟨fun a b => by simp only [ServiceOrder.Less, decide_eq_false_iff_not, not_lt]; omega⟩
  haveI : IsTrans Service (fun a b => ServiceOrder.Less b a = false) :=
    ⟨fun a b c => by simp only [ServiceOrder.Less, decide_eq_false_iff_not, not_lt]; omega⟩
  refine (List.sorted_insertionSort (fun a b => ServiceOrder.Less b a = false) l).imp ?_
  intro a b h
  simpa [ServiceOrder.Less] using h

theorem delete_after_create (services : List Service) (u d : Service) (check : Bool)
    (now id : Int) (hfresh : ∀ s ∈ services, s.Id ≠ id) (hd : d.Id = id) :
    ∃ reg, Delete (Create services u check now (Except.ok id)).1 d none = some (reg, none) ∧
      ∀ s ∈ reg, s.Id ≠ id := by
  set u1 : Service := { u with CreatedAt := now, Id := id } with hu1
  set l := reorderServices (services ++ [u1]) with hl
  have hcreate : (Create services u check now (Except.ok id)).1 = l := rfl
  have hmem : ∃ s ∈ l, s.Id = d.Id :=
    ⟨u1, mem_reorderServices.mpr (by simp), by simp [hu1, hd]⟩
  obtain ⟨hi, hid⟩ := index_of_mem hmem
  have hcount : l.countP (fun s => s.Id = id) = 1 := by
    rw [(reorderServices_perm _).countP_eq, List.countP_append]
    have h0 : services.countP (fun s => decide (s.Id = id)) = 0 := by
      rw [List.countP_eq_zero]
      intro s hs
      simpa using hfresh s hs
    simp [h0, hu1]
  have hsplit : l = l.take (index l d) ++ l.get ⟨index l d, hi⟩ :: l.drop (index l d + 1) := by
    conv_lhs => rw [← List.take_append_drop (index l d) l]
    rw [List.drop_eq_getElem_cons hi]
    rfl
  have hzero : (l.take (index l d) ++ l.drop (index l d + 1)).countP (fun s => s.Id = id)
      = 0 := by
    have h1 := hcount
    rw [hsplit, List.countP_append, List.countP_cons] at h1
    rw [List.countP_append]
    have : decide ((l.get ⟨index l d, hi⟩).Id = id) = true := by simpa [hd] using hid
    simp only [this, if_true] at h1
    omega
  refine ⟨reorderServices (l.take (index l d) ++ l.drop (index l d + 1)), ?_, ?_⟩
  · rw [hcreate]
    simp only [Delete]
    rw [if_pos (by omega)]
  · intro s hs
    have hs1 := mem_reorderServices.mp hs
    rw [List.countP_eq_zero] at hzero
    simpa using hzero s hs1

/-- Both `Create` and `Delete` end with `reorderServices`, so after a successful call the
registry is ordered. -/
theorem create_delete_ordered (services : List Service) (u : Service) (check : Bool)
    (now id : Int) :
    Ordered (Create services u check now (Except.ok id)).1 ∧
    ∀ r, Delete services u none = some r → Ordered r.1 := by
  refine ⟨reorderServices_ordered _, ?_⟩
  intro r h
  simp only [Delete] at h
  split at h
  · obtain rfl := Option.some.inj h
    exact reorderServices_ordered _
  · simp at h

/-- Creating services with order positions 3, 1, 2 gives the registry order 3, 2, 1. -/
theorem create_three_order :
    ((Create (Create (Create [] (sampleService 0 3) true 0 (Except.ok 1)).1
        (sampleService 0 1) true 0 (Except.ok 2)).1
        (sampleService 0 2) true 0 (Except.ok 3)).1.map fun s => s.Order) = [3, 2, 1] := by
  decide!

theorem OnlineSince_snd (s s1 : Service) (failed total : ℕ) :
    (OnlineSince s failed total).2 = (OnlineSince s1 failed total).2 := by
  unfold OnlineSince
  split
  · rfl
  · split <;> rfl

/-! ## The claims -/

/-- C1 (as stated): with 5 hits and 5 failures neither `OnlineSince` nor `AvgUptime`
gives 50.00. -/
theorem uptime_5_5_not_50 :
    (OnlineSince (sampleService 1 1) 5 5).2 ≠ FP.fin 50 ∧ AvgUptime 5 5 ≠ "50.00" := by
  decide!

/-- C1 (amended): the percent is 100 minus failures divided by hits times 100, so with
5 hits and 5 failures `OnlineSince` returns 0 and `AvgUptime` returns "0.00"; 50.00 is
the result for 10 hits and 5 failures. -/
theorem uptime_5_5_is_0 (s : Service) :
    (OnlineSince s 5 5).2 = FP.fin 0 ∧ AvgUptime 5 5 = "0.00" ∧
    (OnlineSince s 5 10).2 = FP.fin 50 ∧ AvgUptime 5 10 = "50.00" := by
  rw [OnlineSince_snd s (sampleService 1 1) 5 5, OnlineSince_snd s (sampleService 1 1) 5 10]
  decide!

/-- C2: for counts that fit 64 bits, `OnlineSince` returns a finite value between 0 and
100, and the text `AvgUptime` returns is a decimal numeral of a number between 0 and 100. -/
theorem uptime_percent_in_range (s : Service) (failed total : ℕ) (hf : failed < 2 ^ 64)
    (ht : total < 2 ^ 64) :
    (∃ v : ℚ, (OnlineSince s failed total).2 = FP.fin v ∧ 0 ≤ v ∧ v ≤ 100) ∧
    (∃ v : ℚ, parseDecimal (AvgUptime failed total).data = some v ∧ 0 ≤ v ∧ v ≤ 100) := by
  by_cases hf0 : failed = 0
  · subst hf0
    refine ⟨⟨100, by simp [OnlineSince], by norm_num, le_rfl⟩, ⟨100, ?_, by norm_num, le_rfl⟩⟩
    have h : parseDecimal ("100" : String).data = some 100 := by decide!
    simpa [AvgUptime] using h
  by_cases ht0 : total = 0
  · subst ht0
    refine ⟨⟨0, by simp [OnlineSince, hf0], le_rfl, by norm_num⟩, ⟨0, ?_, le_rfl, by norm_num⟩⟩
    have h : parseDecimal ("0.00" : String).data = some 0 := by decide!
    simpa [AvgUptime, hf0] using h
  obtain ⟨a, ha, ha0, ha1⟩ := percent_range hf0 ht0 hf ht
  obtain ⟨n, hn, hfmt⟩ := Sprintf_two_of_range ha0 ha1
  constructor
  · obtain ⟨v, hv, hv0, hv1⟩ := toF64_hundredths hn
    obtain ⟨w, hw, hw0, hw1⟩ := float32_range hv0 hv1
    refine ⟨w, ?_, hw0, hw1⟩
    simp only [OnlineSince, hf0, ht0, if_false]
    rw [ha, hfmt, ParseFloat_fixedChars_two, hv, hw]
  · simp only [AvgUptime, hf0, ht0, if_false]
    rw [ha, hfmt]
    split
    · have h : parseDecimal ("100" : String).data = some 100 := by decide!
      exact ⟨100, h, by norm_num, le_rfl⟩
    · refine ⟨(n : ℚ) / 100, parseDecimal_fixedChars_two n, by positivity, ?_⟩
      have : (n : ℚ) ≤ 10000 := by exact_mod_cast hn
      linarith

theorem uptime_percent_in_range_witness :
    (1 : ℕ) < 2 ^ 64 ∧ (3 : ℕ) < 2 ^ 64 ∧
    (∃ v : ℚ, (OnlineSince (sampleService 1 1) 1 3).2 = FP.fin v ∧ 0 ≤ v ∧ v ≤ 100) ∧
    (∃ v : ℚ, parseDecimal (AvgUptime 1 3).data = some v ∧ 0 ≤ v ∧ v ≤ 100) :=
  ⟨by decide, by decide,
    uptime_percent_in_range (sampleService 1 1) 1 3 (by decide) (by decide)⟩

/-- C3: with no failure since the window start `OnlineSince` stores and returns 100 and
`AvgUptime` returns "100", whatever the hit count. -/
theorem no_failures_is_100 (s : Service) (total : ℕ) :
    (OnlineSince s 0 total).2 = FP.fin 100 ∧
    (OnlineSince s 0 total).1.Online24Hours = FP.fin 100 ∧
    AvgUptime 0 total = "100" := by
  simp [OnlineSince, AvgUptime]

/-- C4 (fails on the code): `TotalUptime` divides by the hit count without a guard; with
no hits and no failures the quotient is not-a-number and the text "NaN" is returned,
where `AvgUptime` on the same counts returns "100". -/
theorem totalUptime_0_0_is_NaN :
    TotalUptime 0 0 = "NaN" ∧ AvgUptime 0 0 = "100" := by
  decide!

/-- C5 (as stated): with 10 hits and latency sum 1000 `AvgTime` does not return 100. -/
theorem avgTime_10_1000_not_100 : AvgTime 10 (FP.fin 1000) ≠ FP.fin 100 := by
  decide!

/-- C5 (amended): with 10 hits and latency sum 1000 `AvgTime` returns 100000, the
average latency 100 times 1000. -/
theorem avgTime_10_1000 : AvgTime 10 (FP.fin 1000) = FP.fin 100000 := by
  decide!

/-- C6 (fails on the code): for an id absent from the registry `index` returns 0, so
`Delete` of an unregistered service removes the first registered service, `updateService`
overwrites it, and on the empty registry both run out of range; `SelectService` does
report the absence. -/
theorem absent_id_acts_on_first_entry :
    SelectService [sampleService 1 3] 2 = none ∧
    index [sampleService 1 3] (sampleService 2 5) = 0 ∧
    Delete [sampleService 1 3] (sampleService 2 5) none = some ([], none) ∧
    updateService [sampleService 1 3] (sampleService 2 5) = some [sampleService 2 5] ∧
    Delete [] (sampleService 2 5) none = none ∧
    updateService [] (sampleService 2 5) = none := by
  decide!

/-- C7 (fails on the code): `Update` sorts the registry before it replaces the entry, so
an update that changes the order position of a service leaves an ordered registry
unordered. -/
theorem update_breaks_order :
    Ordered [sampleService 1 3, sampleService 2 2, sampleService 3 1] ∧
    Update [sampleService 1 3, sampleService 2 2, sampleService 3 1] (sampleService 3 5)
        false none
      = some ([sampleService 1 3, sampleService 2 2, sampleService 3 5], none) ∧
    ¬ Ordered [sampleService 1 3, sampleService 2 2, sampleService 3 5] := by
  decide!

/-- C8 (as stated): with no hits and a failure list whose first entry is the most recent
(created at 50, then 40, then 30), at instant 60 `Downtime` is not 60 - 50. -/
theorem downtime_not_most_recent :
    Failure.mk 50 "a" ∈ [Failure.mk 50 "a", Failure.mk 40 "b", Failure.mk 30 "c"] ∧
    (∀ f ∈ [Failure.mk 50 "a", Failure.mk 40 "b", Failure.mk 30 "c"], f.CreatedAt ≤ 50) ∧
    Downtime 60 [] [Failure.mk 50 "a", Failure.mk 40 "b", Failure.mk 30 "c"] = 30 ∧
    Downtime 60 [] [Failure.mk 50 "a", Failure.mk 40 "b", Failure.mk 30 "c"] ≠ 60 - 50 := by
  decide

/-- C8 (amended): with no hits `Downtime` is the instant `now` minus the creation time
of the last entry of the limited failure list (saturated to the duration range, so
the exact difference whenever that fits); that entry is the most recent failure of
the list when the list is in chronological order. -/
theorem downtime_no_hits (now : Int) (fails : List Failure) (f : Failure)
    (h : fails.getLast? = some f) :
    Downtime now [] fails = timeSub now f.CreatedAt ∧
    (-(2 ^ 63) ≤ now - f.CreatedAt → now - f.CreatedAt ≤ 2 ^ 63 - 1 →
      Downtime now [] fails = now - f.CreatedAt) ∧
    (fails.Pairwise (fun a b => a.CreatedAt ≤ b.CreatedAt) →
      ∀ g ∈ fails, g.CreatedAt ≤ f.CreatedAt) := by
  have hne : fails ≠ [] := by
    rintro rfl
    simp at h
  have hlen : fails.length ≠ 0 := by simpa using hne
  have hD : Downtime now [] fails = timeSub now f.CreatedAt := by
    simp [Downtime, hlen, h]
  refine ⟨hD, ?_, ?_⟩
  · intro h1 h2
    rw [hD]
    unfold timeSub
    omega
  · intro hp g hg
    obtain ⟨init, rfl⟩ : ∃ init, fails = init ++ [f] := by
      refine ⟨fails.dropLast, ?_⟩
      have := List.dropLast_append_getLast? f (by simpa [Option.mem_def] using h)
      exact this.symm
    rw [List.pairwise_append] at hp
    rcases List.mem_append.mp hg with hg | hg
    · exact hp.2.2 g hg f (by simp)
    · simp at hg
      simp [hg]

theorem downtime_no_hits_witness :
    [Failure.mk 30 "c", Failure.mk 40 "b", Failure.mk 50 "a"].getLast?
      = some (Failure.mk 50 "a") ∧
    Downtime 60 [] [Failure.mk 30 "c", Failure.mk 40 "b", Failure.mk 50 "a"]
      = timeSub 60 50 ∧
    (-(2 ^ 63) ≤ (60 : Int) - 50 → (60 : Int) - 50 ≤ 2 ^ 63 - 1 →
      Downtime 60 [] [Failure.mk 30 "c", Failure.mk 40 "b", Failure.mk 50 "a"] = 60 - 50) ∧
    ([Failure.mk 30 "c", Failure.mk 40 "b", Failure.mk 50 "a"].Pairwise
        (fun a b => a.CreatedAt ≤ b.CreatedAt) →
      ∀ g ∈ [Failure.mk 30 "c", Failure.mk 40 "b", Failure.mk 50 "a"], g.CreatedAt ≤ 50) :=
  ⟨rfl, downtime_no_hits 60 [Failure.mk 30 "c", Failure.mk 40 "b", Failure.mk 50 "a"]
    (Failure.mk 50 "a") rfl⟩

/-- C9: when the id the store gives a created service is not yet registered, a successful
`Create` followed by a successful `Delete` of the created service returns a registry
holding no entry with that id. -/
theorem create_then_delete_absent (services : List Service) (u : Service) (check : Bool)
    (now id : Int) (hfresh : ∀ s ∈ services, s.Id ≠ id) :
    ∃ reg,
      Delete (Create services u check now (Except.ok id)).1
        (Create services u check now (Except.ok id)).2.1 none = some (reg, none) ∧
      ∀ s ∈ reg, s.Id ≠ id :=
  delete_after_create services u { u with CreatedAt := now, Id := id } check now id hfresh rfl

theorem create_then_delete_absent_witness :
    (∀ s ∈ [sampleService 1 3, sampleService 2 2], s.Id ≠ 7) ∧
    ∃ reg,
      Delete (Create [sampleService 1 3, sampleService 2 2] (sampleService 0 5) true 10
          (Except.ok 7)).1
        (Create [sampleService 1 3, sampleService 2 2] (sampleService 0 5) true 10
          (Except.ok 7)).2.1 none = some (reg, none) ∧
      ∀ s ∈ reg, s.Id ≠ 7 :=
  ⟨by decide,
    create_then_delete_absent [sampleService 1 3, sampleService 2 2] (sampleService 0 5)
      true 10 7 (by decide)⟩

/-- C10: when the persistence step fails, `Create` returns id 0 with the storage error,
`Update` and `Delete` return the storage error, and the registry is the one passed in. -/
theorem storage_error_leaves_registry (services : List Service) (u : Service)
    (check restart : Bool) (now : Int) (e : String) :
    Create services u check now (Except.error e)
      = (services, { u with CreatedAt := now }, 0, some e) ∧
    Update services u restart (some e) = some (services, some e) ∧
    Delete services u (some e) = some (services, some e) := by
  refine ⟨rfl, rfl, rfl⟩

end Statping
